import Mathlib

/-!
Verification of the pull-based XML reader wrapper (`src/reader.rs`) of the
`no-std-xml` repository.

The repository's `src/` contains only `reader.rs`: the public wrapper types
`EventReader` and `Events` and their operations (`new`, `new_with_config`,
`next`, `skip`, `position`, `into_inner`, `into_iter`, `from_str`,
`Events::next`, `Events::into_inner`).  The inner modules (`parser`, `config`,
`events`, `error`, `lexer`, `common`) are declared but their code is absent, so
the types they provide (`XmlEvent`, `Error`, `ParserConfig2`, `PullParser`,
`TextPosition`) and the behaviour of `PullParser::next`,
`PullParser::position` and `PullParser::is_ignoring_end_of_stream` are
modelled from the specification, as documented on each such definition.

The grammar state machine inside `PullParser` (one `parse one event` step) is
kept abstract as a parameter `Machine σ`: a function from the inner state and
the remaining byte source to the produced event, the successor state, the
remaining source and the position of the produced event.  All theorems about
the wrapper quantify over this machine, so they hold for the real grammar
machine as a special case.
-/

namespace Xml

/-- Modelled from the spec (§6 `Position query`, the missing `common` module):
a 1-based (line, column) text position. -/
structure TextPosition where
  line : Nat
  column : Nat
deriving DecidableEq, Repr

/-- The initial position of a parse session (1-based). -/
def TextPosition.start : TextPosition := ⟨1, 1⟩

/-- Modelled from the spec (§7 error taxonomy, the missing `error` module):
the kind of a fatal parse error.  `UnexpectedEof` is the end-of-stream error
that the `ignore_end_of_stream_error` option is about. -/
inductive ErrorKind where
  | LexError (msg : String)
  | WellFormednessError (msg : String)
  | UnexpectedEof
  | ReferenceError (msg : String)
  | LimitExceeded
deriving DecidableEq, Repr

/-- Modelled from the spec (§7: `Every error carries (line, column)`, the
missing `error` module): a parse error with its position. -/
structure Error where
  pos : TextPosition
  kind : ErrorKind
deriving DecidableEq, Repr

/-- Modelled from the spec (§3 `XmlEvent`, the missing `events` module): one
structured parse event.  Errors are not an event variant in this crate; they
travel on the error side of `Result`, as `reader.rs` shows (`Err(_)` matches
in `Events::next`). -/
inductive XmlEvent where
  | StartDocument (version : String) (encoding : String) (standalone : Option Bool)
  | EndDocument
  | StartElement (name : String) (attributes : List (String × String))
  | EndElement (name : String)
  | Characters (data : String)
  | Whitespace (data : String)
  | CData (data : String)
  | Comment (data : String)
  | ProcessingInstruction (target : String) (data : Option String)
deriving DecidableEq, Repr

/-- The coarse kind of an event, as far as the depth bookkeeping of `skip`
is concerned. -/
inductive EvKind where
  | start
  | endElem
  | endDoc
  | other
deriving DecidableEq, Repr

/-- Classifies an event for the depth bookkeeping of `skip`. -/
def XmlEvent.kind : XmlEvent → EvKind
  | .StartElement _ _ => .start
  | .EndElement _ => .endElem
  | .EndDocument => .endDoc
  | _ => .other

/-- The result type of `reader.rs`: `pub type Result<T, E = Error> =
result::Result<T, E>`. -/
abbrev Result (α : Type) := Except Error α

/-- Modelled from the spec (§6 recognized configuration options, the missing
`config` module): the immutable parser configuration.  `new` (below) gives the
defaults.  The `impl Into<ParserConfig2>` argument of `new_with_config` is
modelled as taking a `ParserConfig2` directly. -/
structure ParserConfig2 where
  trim_whitespace : Bool := false
  whitespace_to_characters : Bool := false
  cdata_to_characters : Bool := false
  coalesce_characters : Bool := false
  ignore_comments : Bool := false
  ignore_end_of_stream_error : Bool := false
  extra_entities : List (String × String) := []
  allow_multiple_root_elements : Bool := false
  max_entity_expansion_length : Nat := 0
deriving DecidableEq, Repr

/-- Modelled from the spec: `ParserConfig2::new()`, the default
configuration (maximal fidelity, no option enabled). -/
def ParserConfig2.new : ParserConfig2 := {}

/-- One step of the abstract grammar state machine: the produced event (or
error), the successor inner state, the remaining byte source, and the
position of the produced event. -/
structure MachineStep (σ : Type) where
  event : Result XmlEvent
  state : σ
  source : List Nat
  pos : TextPosition

/-- The abstract grammar state machine (the missing `parser`, `lexer`,
`config` internals): given the inner state and the byte source, parse one
event.  The byte source `S : Iterator<Item = u8>` is modelled as the list of
bytes not yet consumed. -/
def Machine (σ : Type) := σ → List Nat → MachineStep σ

/-- Modelled from the spec (§3 `ParserState`, §9: `a tagged state plus a
stored last-terminal value`; the missing `parser` module): the state of
`PullParser`.  `final_result` is the latched terminal value used for the
sticky-terminal contract. -/
structure PullParser (σ : Type) where
  machine : Machine σ
  config : ParserConfig2
  st : σ
  pos : TextPosition
  final_result : Option (Result XmlEvent)

/-- Modelled from the spec (§4.4, §6, §7): whether a produced result is
latched as the session's terminal value.  `EndDocument` always latches; an
error latches unless it is the end-of-stream error and
`ignore_end_of_stream_error` is enabled (§6: `disable sticky repeat, allow
resync`; §7: errors repeat `by default`). -/
def shouldLatch (cfg : ParserConfig2) : Result XmlEvent → Bool
  | .ok .EndDocument => true
  | .error e => !(cfg.ignore_end_of_stream_error && decide (e.kind = ErrorKind.UnexpectedEof))
  | .ok _ => false

/-- Modelled from the spec: `PullParser::new(config)`. -/
def PullParser.new (m : Machine σ) (s0 : σ) (config : ParserConfig2) : PullParser σ :=
  { machine := m, config := config, st := s0, pos := TextPosition.start, final_result := none }

/-- Modelled from the spec (§4.4 sticky-terminal contract): `PullParser::next`.
If a terminal value is latched it is returned again, without consuming input
or changing state; otherwise the grammar machine parses one event, the
position of that event is recorded, and a terminal result is latched. -/
def PullParser.next (p : PullParser σ) (src : List Nat) :
    Result XmlEvent × PullParser σ × List Nat :=
  match p.final_result with
  | some ev => (ev, p, src)
  | none =>
    let step := p.machine p.st src
    (step.event,
     { p with st := step.state, pos := step.pos,
              final_result := if shouldLatch p.config step.event then some step.event else none },
     step.source)

/-- Modelled from the spec (§6 `Position query`): `PullParser::position`,
the position of the most recently produced event. -/
def PullParser.position (p : PullParser σ) : TextPosition := p.pos

/-- Modelled from the spec (§6): `PullParser::is_ignoring_end_of_stream`,
consulted by `Events::next` in `reader.rs`. -/
def PullParser.is_ignoring_end_of_stream (p : PullParser σ) : Bool :=
  p.config.ignore_end_of_stream_error

/-- `EventReader` from `reader.rs`: a byte source plus the pull parser. -/
structure EventReader (σ : Type) where
  source : List Nat
  parser : PullParser σ

/-- `EventReader::new_with_config` from `reader.rs`:
`EventReader { source, parser: PullParser::new(config) }`. -/
def EventReader.new_with_config (m : Machine σ) (s0 : σ) (source : List Nat)
    (config : ParserConfig2) : EventReader σ :=
  { source := source, parser := PullParser.new m s0 config }

/-- `EventReader::new` from `reader.rs`:
`EventReader::new_with_config(source, ParserConfig2::new())`. -/
def EventReader.new (m : Machine σ) (s0 : σ) (source : List Nat) : EventReader σ :=
  EventReader.new_with_config m s0 source ParserConfig2.new

/-- `EventReader::next` from `reader.rs`: `self.parser.next(&mut self.source)`;
returns the event together with the updated reader. -/
def EventReader.next (r : EventReader σ) : Result XmlEvent × EventReader σ :=
  let res := PullParser.next r.parser r.source
  (res.1, { source := res.2.2, parser := res.2.1 })

/-- `EventReader::into_inner` from `reader.rs`: returns the underlying source. -/
def EventReader.into_inner (r : EventReader σ) : List Nat := r.source

/-- The `Position` impl for `EventReader` from `reader.rs`:
`self.parser.position()`. -/
def EventReader.position (r : EventReader σ) : TextPosition :=
  PullParser.position r.parser

/-- The UTF-8 bytes of a string, as a list of byte values: the byte source
that `s.as_bytes().into_iter().copied()` yields in `reader.rs`. -/
def strBytes (s : String) : List Nat := s.toUTF8.toList.map UInt8.toNat

/-- `EventReader::from_str` from `reader.rs`:
`EventReader::new(source.as_bytes().into_iter().copied())`. -/
def EventReader.from_str (m : Machine σ) (s0 : σ) (s : String) : EventReader σ :=
  EventReader.new m s0 (strBytes s)

/-- `Events` from `reader.rs`: the iterator wrapper with its `finished` flag. -/
structure Events (σ : Type) where
  reader : EventReader σ
  finished : Bool

/-- The `IntoIterator` impl for `EventReader` from `reader.rs`:
`Events { reader: self, finished: false }`. -/
def EventReader.into_iter (r : EventReader σ) : Events σ :=
  { reader := r, finished := false }

/-- `Events::into_inner` from `reader.rs`: returns the internal `EventReader`. -/
def Events.into_inner (it : Events σ) : EventReader σ := it.reader

/-- Is a pulled result terminal for the `Events` iterator?  This is the
pattern `Ok(XmlEvent::EndDocument) | Err(_)` of `reader.rs` line 136. -/
def terminalResult : Result XmlEvent → Bool
  | .ok .EndDocument => true
  | .error _ => true
  | .ok _ => false

/-- Whether an optional pulled result is terminal. -/
def optTerminal : Option (Result XmlEvent) → Bool
  | some res => terminalResult res
  | none => false

/-- `Events::next` (the `Iterator` impl) from `reader.rs`: returns `None` when
`finished` is set and the parser is not ignoring end of stream; otherwise
pulls one event from the reader, setting `finished` on a terminal result. -/
def Events.next (it : Events σ) : Option (Result XmlEvent) × Events σ :=
  if it.finished && !(PullParser.is_ignoring_end_of_stream it.reader.parser) then
    (none, it)
  else
    let p := EventReader.next it.reader
    (some p.1, { reader := p.2, finished := it.finished || terminalResult p.1 })

/-- The outcome of `EventReader::skip`.  `panicked` models the
`unreachable!()` branch taken on `EndDocument`; `fuelOut` models running out
of the fuel that bounds the (in Rust unbounded) loop. -/
inductive SkipResult (σ : Type) where
  | ok (r : EventReader σ)
  | err (e : Error) (r : EventReader σ)
  | panicked (r : EventReader σ)
  | fuelOut (r : EventReader σ)

/-- Whether a `skip` outcome is the `unreachable!()` branch. -/
def SkipResult.isPanicked : SkipResult σ → Bool
  | .panicked _ => true
  | _ => false

/-- The loop of `EventReader::skip` from `reader.rs`: while `depth > 0`,
pull one event; `StartElement` increments the depth, `EndElement` decrements
it, `EndDocument` is `unreachable!()`, an error propagates out (the `?`
operator), anything else is discarded.  `fuel` bounds the number of loop
iterations. -/
def skipAux : Nat → Nat → EventReader σ → SkipResult σ
  | _, 0, r => .ok r
  | 0, Nat.succ _, r => .fuelOut r
  | Nat.succ fuel, Nat.succ depth, r =>
    match EventReader.next r with
    | (.error e, r2) => .err e r2
    | (.ok (.StartElement _ _), r2) => skipAux fuel (depth + 2) r2
    | (.ok (.EndElement _), r2) => skipAux fuel depth r2
    | (.ok .EndDocument, r2) => .panicked r2
    | (.ok _, r2) => skipAux fuel (depth + 1) r2

/-- `EventReader::skip` from `reader.rs`: the loop above started with
`depth = 1`. -/
def EventReader.skip (fuel : Nat) (r : EventReader σ) : SkipResult σ :=
  skipAux fuel 1 r

/-- Pulls `n` events from the reader, discarding them, and returns the
resulting reader state. -/
def discardN : Nat → EventReader σ → EventReader σ
  | 0, r => r
  | n + 1, r => discardN n (EventReader.next r).2

/-- The list of the first `n` results pulled from the reader. -/
def pullTrace : Nat → EventReader σ → List (Result XmlEvent)
  | 0, _ => []
  | n + 1, r => (EventReader.next r).1 :: pullTrace n (EventReader.next r).2

/-- Advances the `Events` iterator by `n` calls to `Events::next`,
discarding the outputs. -/
def eventsAdvance : Nat → Events σ → Events σ
  | 0, it => it
  | n + 1, it => eventsAdvance n (Events.next it).2

/-! ## Basic lemmas about one pull -/

/-- When a terminal value is latched, a pull returns it and leaves the whole
reader (parser state, position, and byte source) unchanged. -/
theorem next_of_final_some (r : EventReader σ) (ev : Result XmlEvent)
    (h : r.parser.final_result = some ev) :
    EventReader.next r = (ev, r) := by
  simp [EventReader.next, PullParser.next, h]

/-- When no terminal value is latched, a pull runs the grammar machine for
one step and records its outcome. -/
theorem next_of_final_none (r : EventReader σ)
    (h : r.parser.final_result = none) :
    EventReader.next r =
      ((r.parser.machine r.parser.st r.source).event,
       { source := (r.parser.machine r.parser.st r.source).source,
         parser :=
           { r.parser with
             st := (r.parser.machine r.parser.st r.source).state,
             pos := (r.parser.machine r.parser.st r.source).pos,
             final_result :=
               if shouldLatch r.parser.config (r.parser.machine r.parser.st r.source).event then
                 some (r.parser.machine r.parser.st r.source).event
               else none } }) := by
  simp [EventReader.next, PullParser.next, h]

/-- A pull never changes the machine or the configuration of the parser. -/
theorem next_preserves_machine_config (r : EventReader σ) :
    ((EventReader.next r).2).parser.machine = r.parser.machine ∧
    ((EventReader.next r).2).parser.config = r.parser.config := by
  cases h : r.parser.final_result with
  | none => rw [next_of_final_none r h]; exact ⟨rfl, rfl⟩
  | some ev => rw [next_of_final_some r ev h]; exact ⟨rfl, rfl⟩

/-! ## C5, C9, C10: construction and wrapping -/

/-- C5: `EventReader::from_str(s)` is the reader built by `EventReader::new`
over the bytes of `s`; in particular both produce the same events, errors and
positions, pull after pull. -/
theorem c5_from_str_equiv (m : Machine σ) (s0 : σ) (s : String) :
    EventReader.from_str m s0 s = EventReader.new m s0 (strBytes s) ∧
    (∀ k, pullTrace k (EventReader.from_str m s0 s) =
      pullTrace k (EventReader.new m s0 (strBytes s))) ∧
    (∀ k, (discardN k (EventReader.from_str m s0 s)).position =
      (discardN k (EventReader.new m s0 (strBytes s))).position) :=
  ⟨rfl, fun _ => rfl, fun _ => rfl⟩

/-- C9: construction is effect-free on the source: `new` and
`new_with_config` consume no bytes, so `into_inner` on a fresh reader returns
the source unchanged, and `new` builds the same reader as `new_with_config`
with `ParserConfig2::new()`. -/
theorem c9_construction_effect_free (m : Machine σ) (s0 : σ) (src : List Nat)
    (c : ParserConfig2) :
    EventReader.into_inner (EventReader.new m s0 src) = src ∧
    EventReader.into_inner (EventReader.new_with_config m s0 src c) = src ∧
    EventReader.new m s0 src = EventReader.new_with_config m s0 src ParserConfig2.new :=
  ⟨rfl, rfl, rfl⟩

/-- C10: `Events::into_inner` after `into_iter` is the identity on the
reader: the same parser state and the same source come back, and the fresh
iterator's `finished` flag is `false`. -/
theorem c10_into_iter_round_trip (r : EventReader σ) :
    Events.into_inner (EventReader.into_iter r) = r ∧
    (EventReader.into_iter r).reader.parser = r.parser ∧
    (EventReader.into_iter r).reader.source = r.source ∧
    (EventReader.into_iter r).finished = false :=
  ⟨rfl, rfl, rfl, rfl⟩

/-! ## C6: position query -/

/-- C6: the position query returns the position of the most recently produced
event: it reads only the parser's recorded event position; a non-latched pull
records exactly the position the grammar machine attaches to the event it
produces; and a latched pull leaves the position unchanged. -/
theorem c6_position_last_event (r : EventReader σ) :
    EventReader.position r = r.parser.pos ∧
    (r.parser.final_result = none →
      ((EventReader.next r).2).position = (r.parser.machine r.parser.st r.source).pos) ∧
    (∀ ev, r.parser.final_result = some ev →
      EventReader.next r = (ev, r) ∧
      ((EventReader.next r).2).position = EventReader.position r) := by
  refine ⟨rfl, fun h => ?_, fun ev h => ?_⟩
  · rw [next_of_final_none r h]; rfl
  · rw [next_of_final_some r ev h]; exact ⟨rfl, rfl⟩

/-! ## A scripted grammar machine, used to instantiate the theorems -/

/- (The machine is defined just below; the witness readers that use it are
defined next to the theorems they instantiate.) -/

/-- A grammar machine that plays back a fixed script of results: its inner
state is the list of results still to deliver.  Each delivered event consumes
one byte of the source and is reported at position (3, 7); an exhausted
script reports the end-of-stream error without consuming input. -/
def scripted : Machine (List (Result XmlEvent)) := fun s src =>
  match s with
  | [] => { event := .error ⟨⟨1, 1⟩, .UnexpectedEof⟩, state := [], source := src,
            pos := ⟨1, 1⟩ }
  | e :: rest => { event := e, state := rest, source := src.tail, pos := ⟨3, 7⟩ }

/-- A fresh session with one character-data event to deliver. -/
def c6Reader : EventReader (List (Result XmlEvent)) :=
  EventReader.new scripted [.ok (.Characters "z")] [8]

theorem c6_position_last_event_witness :
    c6Reader.parser.final_result = none ∧
    EventReader.position c6Reader = c6Reader.parser.pos ∧
    ((EventReader.next c6Reader).2).position =
      (c6Reader.parser.machine c6Reader.parser.st c6Reader.source).pos :=
  ⟨rfl, (c6_position_last_event c6Reader).1, (c6_position_last_event c6Reader).2.1 rfl⟩

/-! ## C1: sticky terminal -/

/-- Once a pull's result has been latched, every further pull is a fixpoint:
the same result comes back and the reader does not change at all. -/
theorem discardN_fix_of_latched (r : EventReader σ) (ev : Result XmlEvent)
    (h : r.parser.final_result = some ev) :
    ∀ k, discardN k r = r ∧ pullTrace k r = List.replicate k ev := by
  intro k
  induction k with
  | zero => exact ⟨rfl, rfl⟩
  | succ k ih =>
    have hfix := next_of_final_some r ev h
    constructor
    · show discardN k (EventReader.next r).2 = r
      rw [hfix]; exact ih.1
    · show (EventReader.next r).1 :: pullTrace k (EventReader.next r).2 = _
      rw [hfix]; simp [List.replicate_succ, ih.2]

/-- A pull whose result the configuration latches leaves that result stored
as the parser's terminal value. -/
theorem latched_after_next (r : EventReader σ)
    (h : shouldLatch r.parser.config (EventReader.next r).1 = true) :
    ((EventReader.next r).2).parser.final_result = some ((EventReader.next r).1) := by
  cases hf : r.parser.final_result with
  | some ev => rw [next_of_final_some r ev hf]; exact hf
  | none =>
    rw [next_of_final_none r hf] at h ⊢
    simp only [h, if_true]

/-- C1 (amended): sticky terminal.  For every parse session, once
`EventReader::next` returns `EndDocument` or an error that the session
latches — that is, any error except the end-of-stream error when the
`ignore_end_of_stream_error` option is enabled — every subsequent call to
`next` returns that same result again, at the same position, without
consuming further input and without changing any state. -/
theorem c1_sticky_terminal (r : EventReader σ)
    (h : shouldLatch r.parser.config (EventReader.next r).1 = true) :
    ∀ k, discardN k (EventReader.next r).2 = (EventReader.next r).2 ∧
      pullTrace k (EventReader.next r).2 =
        List.replicate k ((EventReader.next r).1) ∧
      (discardN k (EventReader.next r).2).position = ((EventReader.next r).2).position ∧
      (discardN k (EventReader.next r).2).source = ((EventReader.next r).2).source := by
  intro k
  have hl := latched_after_next r h
  have hfix := discardN_fix_of_latched _ _ hl k
  exact ⟨hfix.1, hfix.2, by rw [hfix.1], by rw [hfix.1]⟩

/-- The session used to exercise the sticky-terminal theorem: a default
configuration and a script that ends the document. -/
def c1Reader : EventReader (List (Result XmlEvent)) :=
  EventReader.new scripted [.ok (.Characters "x"), .ok .EndDocument] [10, 20]

/-- The reader `c1Reader` after two pulls: the second pull returns
`EndDocument`, which latches. -/
def c1ReaderAtEnd : EventReader (List (Result XmlEvent)) :=
  (EventReader.next (EventReader.next c1Reader).2).2

theorem c1_sticky_terminal_witness :
    shouldLatch c1ReaderAtEnd.parser.config (EventReader.next c1ReaderAtEnd).1 = true ∧
    discardN 3 (EventReader.next c1ReaderAtEnd).2 = (EventReader.next c1ReaderAtEnd).2 ∧
    pullTrace 3 (EventReader.next c1ReaderAtEnd).2 =
      List.replicate 3 (Except.ok XmlEvent.EndDocument) := by
  refine ⟨rfl, (c1_sticky_terminal c1ReaderAtEnd rfl 3).1, ?_⟩
  have h := (c1_sticky_terminal c1ReaderAtEnd rfl 3).2.1
  rw [h]; rfl

/-- The end-of-stream error produced by an exhausted scripted machine. -/
def eofError : Error := ⟨⟨1, 1⟩, .UnexpectedEof⟩

/-- A session with `ignore_end_of_stream_error` enabled whose script first
reports the end-of-stream error and then, once more input is available,
produces a further event — the resynchronization the option exists for. -/
def c1IgnoreReader : EventReader (List (Result XmlEvent)) :=
  EventReader.new_with_config scripted [.error eofError, .ok (.Characters "x")] [10, 20]
    { ParserConfig2.new with ignore_end_of_stream_error := true }

/-- C1 (counterexample to the claim as stated): with
`ignore_end_of_stream_error` enabled, a pull that returns an error (the
end-of-stream error) is not sticky — the next pull returns a different
result, so the unconditional sticky-terminal claim fails. -/
theorem c1_sticky_terminal_counterexample :
    (EventReader.next c1IgnoreReader).1 = .error eofError ∧
    (EventReader.next ((EventReader.next c1IgnoreReader).2)).1 =
      .ok (.Characters "x") ∧
    (Except.ok (XmlEvent.Characters "x") : Result XmlEvent) ≠ .error eofError := by
  exact ⟨rfl, rfl, fun h => Except.noConfusion h⟩

/-! ## C8, C4: the Events iterator -/

/-- When `finished` is set and end of stream is not being ignored,
`Events::next` returns `None` and leaves the iterator untouched. -/
theorem events_stuck (it : Events σ) (hfin : it.finished = true)
    (hig : PullParser.is_ignoring_end_of_stream it.reader.parser = false) :
    Events.next it = (none, it) := by
  simp [Events.next, hfin, hig]

/-- `Events::next` never changes the parser configuration. -/
theorem events_next_preserves_config (it : Events σ) :
    ((Events.next it).2).reader.parser.config = it.reader.parser.config := by
  by_cases hb : (it.finished && !(PullParser.is_ignoring_end_of_stream it.reader.parser)) = true
  · simp [Events.next, hb]
  · simp only [Events.next, hb, if_false, Bool.false_eq_true]
    exact (next_preserves_machine_config it.reader).2

/-- A call to `Events::next` that returns `Some` of a terminal result leaves
the `finished` flag set. -/
theorem events_terminal_sets_finished (it : Events σ)
    (hterm : optTerminal ((Events.next it).1) = true) :
    ((Events.next it).2).finished = true := by
  by_cases hb : (it.finished && !(PullParser.is_ignoring_end_of_stream it.reader.parser)) = true
  · rw [events_stuck it (Bool.and_elim_left hb)
      (by simpa using Bool.and_elim_right hb)] at hterm
    simp [optTerminal] at hterm
  · simp only [Events.next, hb, if_false, Bool.false_eq_true] at hterm ⊢
    simp only [optTerminal] at hterm
    rw [hterm, Bool.or_true]

/-- C8: `Events` is fused.  Once `Events::next` returns `None` the iterator is
unchanged (the `finished` flag stays set and the parser's configuration does
not change), and every subsequent call also returns `None`. -/
theorem c8_events_fused (it : Events σ) (h : (Events.next it).1 = none) :
    (Events.next it).2 = it ∧
    ∀ k, eventsAdvance k it = it ∧ (Events.next (eventsAdvance k it)).1 = none := by
  have hb : (it.finished && !(PullParser.is_ignoring_end_of_stream it.reader.parser)) = true := by
    by_contra hb
    simp only [Events.next, hb, if_false, Bool.false_eq_true] at h
    exact Option.noConfusion h
  have hnone : Events.next it = (none, it) :=
    events_stuck it (Bool.and_elim_left hb) (by simpa using Bool.and_elim_right hb)
  refine ⟨by rw [hnone], fun k => ?_⟩
  induction k with
  | zero => exact ⟨rfl, by show (Events.next it).1 = none; rw [hnone]⟩
  | succ k ih =>
    refine ⟨?_, ?_⟩
    · show eventsAdvance k (Events.next it).2 = it
      rw [hnone]; exact ih.1
    · show (Events.next (eventsAdvance k (Events.next it).2)).1 = none
      rw [hnone]; exact ih.2

/-- Repeated `Events::next` calls leave the parser configuration unchanged. -/
theorem eventsAdvance_preserves_config (k : Nat) (it : Events σ) :
    ((eventsAdvance k it)).reader.parser.config = it.reader.parser.config := by
  induction k generalizing it with
  | zero => rfl
  | succ k ih =>
    show (eventsAdvance k (Events.next it).2).reader.parser.config = _
    rw [ih, events_next_preserves_config]

/-- C4: behaviour of `Events::next` around a terminal result.  Without
`ignore_end_of_stream_error`, once a call returns `Ok(EndDocument)` or
`Err(_)`, every subsequent call returns `None`; with the option enabled,
`Events::next` keeps pulling and producing events (it never returns `None`). -/
theorem c4_events_terminal (it : Events σ) :
    (PullParser.is_ignoring_end_of_stream it.reader.parser = false →
      optTerminal ((Events.next it).1) = true →
      ∀ k, (Events.next (eventsAdvance k (Events.next it).2)).1 = none) ∧
    (PullParser.is_ignoring_end_of_stream it.reader.parser = true →
      ∀ k, (Events.next (eventsAdvance k it)).1 ≠ none) := by
  constructor
  · intro hig hterm k
    have hfin : ((Events.next it).2).finished = true :=
      events_terminal_sets_finished it hterm
    have hig2 : PullParser.is_ignoring_end_of_stream ((Events.next it).2).reader.parser = false := by
      show ((Events.next it).2).reader.parser.config.ignore_end_of_stream_error = false
      rw [events_next_preserves_config]; exact hig
    have hstuck := events_stuck _ hfin hig2
    have := (c8_events_fused _ (by rw [hstuck])).2 k
    exact this.2
  · intro hig k
    induction k generalizing it with
    | zero =>
      have hb : (it.finished && !(PullParser.is_ignoring_end_of_stream it.reader.parser)) = false := by
        rw [hig]; simp
      simp only [eventsAdvance, Events.next, hb, Bool.false_eq_true, if_false]
      exact fun h => Option.noConfusion h
    | succ k ih =>
      show (Events.next (eventsAdvance k (Events.next it).2)).1 ≠ none
      refine ih _ ?_
      show ((Events.next it).2).reader.parser.config.ignore_end_of_stream_error = true
      rw [events_next_preserves_config]; exact hig

/-- A finished iterator over an exhausted script, with the default
configuration. -/
def c8It : Events (List (Result XmlEvent)) :=
  { reader := EventReader.new scripted [] [], finished := true }

theorem c8_events_fused_witness :
    (Events.next c8It).1 = none ∧ (Events.next c8It).2 = c8It ∧
    (Events.next (eventsAdvance 4 c8It)).1 = none :=
  ⟨rfl, (c8_events_fused c8It rfl).1, ((c8_events_fused c8It rfl).2 4).2⟩

/-- An iterator that immediately reaches `EndDocument`, default config. -/
def c4It : Events (List (Result XmlEvent)) :=
  EventReader.into_iter (EventReader.new scripted [.ok .EndDocument] [5])

/-- An iterator with `ignore_end_of_stream_error` enabled whose script errors
and then recovers. -/
def c4ItIgnore : Events (List (Result XmlEvent)) :=
  EventReader.into_iter
    (EventReader.new_with_config scripted [.error eofError, .ok (.Characters "y")] [5]
      { ParserConfig2.new with ignore_end_of_stream_error := true })

theorem c4_events_terminal_witness :
    optTerminal ((Events.next c4It).1) = true ∧
    (Events.next (eventsAdvance 2 (Events.next c4It).2)).1 = none ∧
    (Events.next (eventsAdvance 2 c4ItIgnore)).1 ≠ none :=
  ⟨rfl, (c4_events_terminal c4It).1 rfl rfl 2, (c4_events_terminal c4ItIgnore).2 rfl 2⟩

/-! ## C2, C7: skip versus pulling and discarding -/

/-- Follows the spec's words (§4.4): the number of events of the subtree
after a start tag — `pulls and discards events, incrementing depth on
StartElement, decrementing on EndElement, until depth returns to zero` —
counted along the reader's own pull trace.  `none` when an error, an
`EndDocument`, or fuel exhaustion intervenes before the depth returns to
zero.  `subtreeAux fuel 1 r = some k` says the element whose start tag was
just pulled has exactly `k` remaining events, the `k`-th being its matching
end tag. -/
def subtreeAux : Nat → Nat → EventReader σ → Option Nat
  | _, 0, _ => some 0
  | 0, Nat.succ _, _ => none
  | Nat.succ fuel, Nat.succ depth, r =>
    match EventReader.next r with
    | (.error _, _) => none
    | (.ok (.StartElement _ _), r2) => (subtreeAux fuel (depth + 2) r2).map (· + 1)
    | (.ok (.EndElement _), r2) => (subtreeAux fuel depth r2).map (· + 1)
    | (.ok .EndDocument, _) => none
    | (.ok _, r2) => (subtreeAux fuel (depth + 1) r2).map (· + 1)

/-- The first error pulled while the depth counter is still positive: `some
(k, e)` when the `k`-th pull (counting from 1) returns the error `e` and all
earlier pulls kept the depth positive. -/
def subtreeErrAux : Nat → Nat → EventReader σ → Option (Nat × Error)
  | _, 0, _ => none
  | 0, Nat.succ _, _ => none
  | Nat.succ fuel, Nat.succ depth, r =>
    match EventReader.next r with
    | (.error e, _) => some (1, e)
    | (.ok (.StartElement _ _), r2) => (subtreeErrAux fuel (depth + 2) r2).map (fun p => (p.1 + 1, p.2))
    | (.ok (.EndElement _), r2) => (subtreeErrAux fuel depth r2).map (fun p => (p.1 + 1, p.2))
    | (.ok .EndDocument, _) => none
    | (.ok _, r2) => (subtreeErrAux fuel (depth + 1) r2).map (fun p => (p.1 + 1, p.2))

/-- Whether a pulled result is an `EndElement` event. -/
def isEndElementPull : Result XmlEvent → Bool
  | .ok (.EndElement _) => true
  | _ => false

/-! Step lemmas unfolding one loop iteration of `skipAux`, `subtreeAux` and
`subtreeErrAux` for each shape of the pulled result. -/

theorem skipAux_step_err (f d : Nat) (r r2 : EventReader σ) (e : Error)
    (h : EventReader.next r = (.error e, r2)) :
    skipAux (f + 1) (d + 1) r = .err e r2 := by
  simp only [skipAux]; rw [h]

theorem skipAux_step_start (f d : Nat) (r r2 : EventReader σ) (nm : String)
    (a : List (String × String)) (h : EventReader.next r = (.ok (.StartElement nm a), r2)) :
    skipAux (f + 1) (d + 1) r = skipAux f (d + 2) r2 := by
  simp only [skipAux]; rw [h]

theorem skipAux_step_end (f d : Nat) (r r2 : EventReader σ) (nm : String)
    (h : EventReader.next r = (.ok (.EndElement nm), r2)) :
    skipAux (f + 1) (d + 1) r = skipAux f d r2 := by
  simp only [skipAux]; rw [h]

theorem skipAux_step_endDoc (f d : Nat) (r r2 : EventReader σ)
    (h : EventReader.next r = (.ok .EndDocument, r2)) :
    skipAux (f + 1) (d + 1) r = .panicked r2 := by
  simp only [skipAux]; rw [h]

theorem skipAux_step_other (f d : Nat) (r r2 : EventReader σ) (ev : XmlEvent)
    (hk : ev.kind = .other) (h : EventReader.next r = (.ok ev, r2)) :
    skipAux (f + 1) (d + 1) r = skipAux f (d + 1) r2 := by
  simp only [skipAux]; rw [h]
  cases ev <;> first | rfl | simp [XmlEvent.kind] at hk

theorem subtreeAux_step_err (f d : Nat) (r r2 : EventReader σ) (e : Error)
    (h : EventReader.next r = (.error e, r2)) :
    subtreeAux (f + 1) (d + 1) r = none := by
  simp only [subtreeAux]; rw [h]

theorem subtreeAux_step_start (f d : Nat) (r r2 : EventReader σ) (nm : String)
    (a : List (String × String)) (h : EventReader.next r = (.ok (.StartElement nm a), r2)) :
    subtreeAux (f + 1) (d + 1) r = (subtreeAux f (d + 2) r2).map (· + 1) := by
  simp only [subtreeAux]; rw [h]

theorem subtreeAux_step_end (f d : Nat) (r r2 : EventReader σ) (nm : String)
    (h : EventReader.next r = (.ok (.EndElement nm), r2)) :
    subtreeAux (f + 1) (d + 1) r = (subtreeAux f d r2).map (· + 1) := by
  simp only [subtreeAux]; rw [h]

theorem subtreeAux_step_endDoc (f d : Nat) (r r2 : EventReader σ)
    (h : EventReader.next r = (.ok .EndDocument, r2)) :
    subtreeAux (f + 1) (d + 1) r = none := by
  simp only [subtreeAux]; rw [h]

theorem subtreeAux_step_other (f d : Nat) (r r2 : EventReader σ) (ev : XmlEvent)
    (hk : ev.kind = .other) (h : EventReader.next r = (.ok ev, r2)) :
    subtreeAux (f + 1) (d + 1) r = (subtreeAux f (d + 1) r2).map (· + 1) := by
  simp only [subtreeAux]; rw [h]
  cases ev <;> first | rfl | simp [XmlEvent.kind] at hk

theorem subtreeErrAux_step_err (f d : Nat) (r r2 : EventReader σ) (e : Error)
    (h : EventReader.next r = (.error e, r2)) :
    subtreeErrAux (f + 1) (d + 1) r = some (1, e) := by
  simp only [subtreeErrAux]; rw [h]

theorem subtreeErrAux_step_start (f d : Nat) (r r2 : EventReader σ) (nm : String)
    (a : List (String × String)) (h : EventReader.next r = (.ok (.StartElement nm a), r2)) :
    subtreeErrAux (f + 1) (d + 1) r = (subtreeErrAux f (d + 2) r2).map (fun p => (p.1 + 1, p.2)) := by
  simp only [subtreeErrAux]; rw [h]

theorem subtreeErrAux_step_end (f d : Nat) (r r2 : EventReader σ) (nm : String)
    (h : EventReader.next r = (.ok (.EndElement nm), r2)) :
    subtreeErrAux (f + 1) (d + 1) r = (subtreeErrAux f d r2).map (fun p => (p.1 + 1, p.2)) := by
  simp only [subtreeErrAux]; rw [h]

theorem subtreeErrAux_step_endDoc (f d : Nat) (r r2 : EventReader σ)
    (h : EventReader.next r = (.ok .EndDocument, r2)) :
    subtreeErrAux (f + 1) (d + 1) r = none := by
  simp only [subtreeErrAux]; rw [h]

theorem subtreeErrAux_step_other (f d : Nat) (r r2 : EventReader σ) (ev : XmlEvent)
    (hk : ev.kind = .other) (h : EventReader.next r = (.ok ev, r2)) :
    subtreeErrAux (f + 1) (d + 1) r = (subtreeErrAux f (d + 1) r2).map (fun p => (p.1 + 1, p.2)) := by
  simp only [subtreeErrAux]; rw [h]
  cases ev <;> first | rfl | simp [XmlEvent.kind] at hk

/-- `discardN` pulls its first event and recurses. -/
theorem discardN_succ (k : Nat) (r : EventReader σ) :
    discardN (k + 1) r = discardN k (EventReader.next r).2 := rfl

/-- Every event is a start tag, an end tag, `EndDocument`, or of kind
`other`. -/
theorem kind_cases (ev : XmlEvent) :
    (∃ nm a, ev = .StartElement nm a) ∨ (∃ nm, ev = .EndElement nm) ∨
      ev = .EndDocument ∨ ev.kind = .other := by
  cases ev <;> simp [XmlEvent.kind]

/-- The skip loop started at any depth is the same state transformer as
pulling and discarding the events counted by `subtreeAux`. -/
theorem skipAux_eq_discardN :
    ∀ (fuel d k : Nat) (r : EventReader σ),
      subtreeAux fuel d r = some k → skipAux fuel d r = .ok (discardN k r) := by
  intro fuel
  induction fuel with
  | zero =>
    intro d k r h
    cases d with
    | zero =>
      simp only [subtreeAux, Option.some.injEq] at h
      subst h; rfl
    | succ d =>
      simp only [subtreeAux] at h
      exact Option.noConfusion h
  | succ f ih =>
    intro d k r h
    cases d with
    | zero =>
      simp only [subtreeAux, Option.some.injEq] at h
      subst h; rfl
    | succ d =>
      rcases hnext : EventReader.next r with ⟨res, r2⟩
      cases res with
      | error e =>
        rw [subtreeAux_step_err f d r r2 e hnext] at h
        exact Option.noConfusion h
      | ok ev =>
        rcases kind_cases ev with ⟨nm, a, rfl⟩ | ⟨nm, rfl⟩ | rfl | hk
        · rw [subtreeAux_step_start f d r r2 nm a hnext] at h
          cases hsub : subtreeAux f (d + 2) r2 with
          | none => rw [hsub] at h; exact Option.noConfusion h
          | some k2 =>
            rw [hsub] at h
            simp only [Option.map_some', Option.some.injEq] at h
            subst h
            rw [skipAux_step_start f d r r2 nm a hnext, discardN_succ, hnext]
            exact ih (d + 2) k2 r2 hsub
        · rw [subtreeAux_step_end f d r r2 nm hnext] at h
          cases hsub : subtreeAux f d r2 with
          | none => rw [hsub] at h; exact Option.noConfusion h
          | some k2 =>
            rw [hsub] at h
            simp only [Option.map_some', Option.some.injEq] at h
            subst h
            rw [skipAux_step_end f d r r2 nm hnext, discardN_succ, hnext]
            exact ih d k2 r2 hsub
        · rw [subtreeAux_step_endDoc f d r r2 hnext] at h
          exact Option.noConfusion h
        · rw [subtreeAux_step_other f d r r2 ev hk hnext] at h
          cases hsub : subtreeAux f (d + 1) r2 with
          | none => rw [hsub] at h; exact Option.noConfusion h
          | some k2 =>
            rw [hsub] at h
            simp only [Option.map_some', Option.some.injEq] at h
            subst h
            rw [skipAux_step_other f d r r2 ev hk hnext, discardN_succ, hnext]
            exact ih (d + 1) k2 r2 hsub

/-- C2: skip correctness.  Whenever the depth counter started at 1 returns to
zero after exactly `k` pulled events (the descendant events of the element up
to and including its matching end tag, per the spec's depth-counting
description), `EventReader::skip` succeeds and its resulting reader state is
exactly the state reached by individually pulling and discarding those `k`
events. -/
theorem c2_skip_refines_discard (fuel k : Nat) (r : EventReader σ)
    (h : subtreeAux fuel 1 r = some k) :
    EventReader.skip fuel r = .ok (discardN k r) :=
  skipAux_eq_discardN fuel 1 k r h

/-- A session positioned just inside element `a`, whose remaining events are
a nested element `b` with character content, then the matching end tag of
`a`. -/
def c2Reader : EventReader (List (Result XmlEvent)) :=
  EventReader.new scripted
    [.ok (.StartElement "b" []), .ok (.Characters "x"), .ok (.EndElement "b"),
     .ok (.EndElement "a"), .ok .EndDocument] [1, 2, 3]

theorem c2_skip_refines_discard_witness :
    subtreeAux 10 1 c2Reader = some 4 ∧
    EventReader.skip 10 c2Reader = .ok (discardN 4 c2Reader) :=
  ⟨rfl, c2_skip_refines_discard 10 4 c2Reader rfl⟩

/-- `discardN 1` is one pull. -/
theorem discardN_one (r : EventReader σ) : discardN 1 r = (EventReader.next r).2 := rfl

/-- The skip loop at depth zero stops immediately. -/
theorem skipAux_depth_zero (f : Nat) (r : EventReader σ) : skipAux f 0 r = .ok r := by
  cases f <;> rfl

/-- The subtree count at depth zero is zero. -/
theorem subtreeAux_depth_zero (f : Nat) (r : EventReader σ) : subtreeAux f 0 r = some 0 := by
  cases f <;> rfl

/-- If an error is pulled while the depth counter is positive, the skip loop
returns exactly that error, having pulled exactly the events up to and
including the erroring pull. -/
theorem skipAux_err_of_subtreeErr :
    ∀ (fuel d k : Nat) (e : Error) (r : EventReader σ),
      subtreeErrAux fuel d r = some (k, e) →
      skipAux fuel d r = .err e (discardN k r) := by
  intro fuel
  induction fuel with
  | zero =>
    intro d k e r h
    cases d with
    | zero => simp only [subtreeErrAux] at h; exact Option.noConfusion h
    | succ d => simp only [subtreeErrAux] at h; exact Option.noConfusion h
  | succ f ih =>
    intro d k e r h
    cases d with
    | zero => simp only [subtreeErrAux] at h; exact Option.noConfusion h
    | succ d =>
      rcases hnext : EventReader.next r with ⟨res, r2⟩
      cases res with
      | error e2 =>
        rw [subtreeErrAux_step_err f d r r2 e2 hnext] at h
        simp only [Option.some.injEq, Prod.mk.injEq] at h
        obtain ⟨h1, h2⟩ := h
        subst h1; subst h2
        rw [skipAux_step_err f d r r2 e2 hnext, discardN_one, hnext]
      | ok ev =>
        rcases kind_cases ev with ⟨nm, a, rfl⟩ | ⟨nm, rfl⟩ | rfl | hk
        · rw [subtreeErrAux_step_start f d r r2 nm a hnext] at h
          cases hsub : subtreeErrAux f (d + 2) r2 with
          | none => rw [hsub] at h; exact Option.noConfusion h
          | some p =>
            rw [hsub] at h
            simp only [Option.map_some', Option.some.injEq, Prod.mk.injEq] at h
            obtain ⟨h1, h2⟩ := h
            subst h1; subst h2
            rw [skipAux_step_start f d r r2 nm a hnext, discardN_succ, hnext]
            exact ih (d + 2) p.1 p.2 r2 (by rw [hsub])
        · rw [subtreeErrAux_step_end f d r r2 nm hnext] at h
          cases hsub : subtreeErrAux f d r2 with
          | none => rw [hsub] at h; exact Option.noConfusion h
          | some p =>
            rw [hsub] at h
            simp only [Option.map_some', Option.some.injEq, Prod.mk.injEq] at h
            obtain ⟨h1, h2⟩ := h
            subst h1; subst h2
            rw [skipAux_step_end f d r r2 nm hnext, discardN_succ, hnext]
            exact ih d p.1 p.2 r2 (by rw [hsub])
        · rw [subtreeErrAux_step_endDoc f d r r2 hnext] at h
          exact Option.noConfusion h
        · rw [subtreeErrAux_step_other f d r r2 ev hk hnext] at h
          cases hsub : subtreeErrAux f (d + 1) r2 with
          | none => rw [hsub] at h; exact Option.noConfusion h
          | some p =>
            rw [hsub] at h
            simp only [Option.map_some', Option.some.injEq, Prod.mk.injEq] at h
            obtain ⟨h1, h2⟩ := h
            subst h1; subst h2
            rw [skipAux_step_other f d r r2 ev hk hnext, discardN_succ, hnext]
            exact ih (d + 1) p.1 p.2 r2 (by rw [hsub])

/-- When the skip loop succeeds, the depth counter returned to zero after some
`k + 1` pulls, the resulting state is those pulls discarded, and the last
pulled event is an `EndElement`. -/
theorem skipAux_ok_subtree :
    ∀ (fuel d : Nat) (r s : EventReader σ),
      skipAux fuel (d + 1) r = .ok s →
      ∃ k, subtreeAux fuel (d + 1) r = some (k + 1) ∧ s = discardN (k + 1) r ∧
        isEndElementPull ((EventReader.next (discardN k r)).1) = true := by
  intro fuel
  induction fuel with
  | zero =>
    intro d r s h
    simp only [skipAux] at h
    exact SkipResult.noConfusion h
  | succ f ih =>
    intro d r s h
    rcases hnext : EventReader.next r with ⟨res, r2⟩
    cases res with
    | error e =>
      rw [skipAux_step_err f d r r2 e hnext] at h
      exact SkipResult.noConfusion h
    | ok ev =>
      rcases kind_cases ev with ⟨nm, a, rfl⟩ | ⟨nm, rfl⟩ | rfl | hk
      · rw [skipAux_step_start f d r r2 nm a hnext] at h
        obtain ⟨k, hsub, hs, hlast⟩ := ih (d + 1) r2 s h
        refine ⟨k + 1, ?_, ?_, ?_⟩
        · rw [subtreeAux_step_start f d r r2 nm a hnext, hsub]; rfl
        · rw [discardN_succ, hnext]; exact hs
        · rw [discardN_succ, hnext]; exact hlast
      · rw [skipAux_step_end f d r r2 nm hnext] at h
        cases d with
        | zero =>
          rw [skipAux_depth_zero] at h
          have hs : r2 = s := by injection h
          subst hs
          refine ⟨0, ?_, ?_, ?_⟩
          · rw [subtreeAux_step_end f 0 r r2 nm hnext, subtreeAux_depth_zero]; rfl
          · show r2 = discardN 1 r
            rw [discardN_one, hnext]
          · show isEndElementPull ((EventReader.next r).1) = true
            rw [hnext]; rfl
        | succ d =>
          obtain ⟨k, hsub, hs, hlast⟩ := ih d r2 s h
          refine ⟨k + 1, ?_, ?_, ?_⟩
          · rw [subtreeAux_step_end f (d + 1) r r2 nm hnext, hsub]; rfl
          · rw [discardN_succ, hnext]; exact hs
          · rw [discardN_succ, hnext]; exact hlast
      · rw [skipAux_step_endDoc f d r r2 hnext] at h
        exact SkipResult.noConfusion h
      · rw [skipAux_step_other f d r r2 ev hk hnext] at h
        obtain ⟨k, hsub, hs, hlast⟩ := ih d r2 s h
        refine ⟨k + 1, ?_, ?_, ?_⟩
        · rw [subtreeAux_step_other f d r r2 ev hk hnext, hsub]; rfl
        · rw [discardN_succ, hnext]; exact hs
        · rw [discardN_succ, hnext]; exact hlast

/-- C7: error propagation in skip.  If a pull performed inside
`EventReader::skip` returns an error `e` before the depth returns to zero —
at the `k`-th pull — then `skip` returns exactly that error having pulled
exactly those `k` events and no further ones; and `skip` returns `Ok(())`
only when the depth returned to zero with the final consumed event an
`EndElement` (the matching end tag). -/
theorem c7_skip_error_propagation (fuel : Nat) (r : EventReader σ) :
    (∀ k e, subtreeErrAux fuel 1 r = some (k, e) →
      EventReader.skip fuel r = .err e (discardN k r)) ∧
    (∀ s, EventReader.skip fuel r = .ok s →
      ∃ k, subtreeAux fuel 1 r = some (k + 1) ∧ s = discardN (k + 1) r ∧
        isEndElementPull ((EventReader.next (discardN k r)).1) = true) :=
  ⟨fun k e h => skipAux_err_of_subtreeErr fuel 1 k e r h,
   fun s h => skipAux_ok_subtree fuel 0 r s h⟩

/-- An error a scripted session reports mid-subtree. -/
def c7Err : Error := ⟨⟨3, 7⟩, .LexError "bad"⟩

/-- A session just inside an element whose content errors at the second
pull. -/
def c7ErrReader : EventReader (List (Result XmlEvent)) :=
  EventReader.new scripted [.ok (.Characters "x"), .error c7Err] [1, 2]

/-- A session just inside an element whose subtree closes cleanly after four
events. -/
def c7OkReader : EventReader (List (Result XmlEvent)) :=
  EventReader.new scripted
    [.ok (.Comment "c"), .ok (.StartElement "b" []), .ok (.EndElement "b"),
     .ok (.EndElement "a"), .ok .EndDocument] [9]

theorem c7_skip_error_propagation_witness :
    subtreeErrAux 10 1 c7ErrReader = some (2, c7Err) ∧
    EventReader.skip 10 c7ErrReader = .err c7Err (discardN 2 c7ErrReader) ∧
    (∃ k, subtreeAux 10 1 c7OkReader = some (k + 1) ∧
      discardN 4 c7OkReader = discardN (k + 1) c7OkReader ∧
      isEndElementPull ((EventReader.next (discardN k c7OkReader)).1) = true) :=
  ⟨rfl, (c7_skip_error_propagation 10 c7ErrReader).1 2 c7Err rfl,
   (c7_skip_error_propagation 10 c7OkReader).2 (discardN 4 c7OkReader) rfl⟩

/-! ## C3: the EndDocument branch of skip is unreachable -/

/-- Modelled from the spec (§4.2 grammar states, §8 parenthesization
property): a depth invariant for a grammar machine.  `inv s src n` reads
`state s with source src is a well-formed parser state with n open
elements`.  A start tag opens one element, an end tag closes one (so it can
only be produced with at least one element open), `EndDocument` is produced
only with no element open, and every other event leaves the open-element
count unchanged.  Errors are unconstrained (they end the session). -/
structure GrammarInv {σ : Type} (m : Machine σ) where
  inv : σ → List Nat → Nat → Prop
  step_start : ∀ s src n nm a, inv s src n →
    (m s src).event = .ok (.StartElement nm a) →
    inv (m s src).state (m s src).source (n + 1)
  step_endElem : ∀ s src n nm, inv s src n →
    (m s src).event = .ok (.EndElement nm) →
    ∃ p, n = p + 1 ∧ inv (m s src).state (m s src).source p
  step_endDoc : ∀ s src n, inv s src n →
    (m s src).event = .ok .EndDocument → n = 0
  step_other : ∀ s src n ev, inv s src n →
    (m s src).event = .ok ev → ev.kind = EvKind.other →
    inv (m s src).state (m s src).source n

/-- A produced event that is not `EndDocument` is never latched. -/
theorem shouldLatch_ok_of_kind (cfg : ParserConfig2) (ev : XmlEvent)
    (hk : ev.kind ≠ EvKind.endDoc) : shouldLatch cfg (.ok ev) = false := by
  cases ev <;> first | rfl | exact absurd rfl hk

/-- Under the grammar depth invariant, the skip loop started with counter
`c ≤ n` (with `n` elements open and no latched terminal) never reaches the
`EndDocument` branch: the loop counter stays at most the number of open
elements, and `EndDocument` needs zero open elements. -/
theorem skipAux_never_panicked {σ : Type} (m : Machine σ) (G : GrammarInv m) :
    ∀ (fuel c n : Nat) (r : EventReader σ),
      r.parser.machine = m → r.parser.final_result = none →
      G.inv r.parser.st r.source n → c ≤ n →
      (skipAux fuel c r).isPanicked = false := by
  intro fuel
  induction fuel with
  | zero =>
    intro c n r hm hf hinv hc
    cases c with
    | zero => rfl
    | succ c => rfl
  | succ f ih =>
    intro c n r hm hf hinv hc
    cases c with
    | zero => rfl
    | succ c =>
      have hnext := next_of_final_none r hf
      rw [hm] at hnext
      cases hev : (m r.parser.st r.source).event with
      | error e =>
        rw [hev] at hnext
        rw [skipAux_step_err f c r _ e hnext]
        rfl
      | ok ev =>
        rcases kind_cases ev with ⟨nm, a, hevk⟩ | ⟨nm, hevk⟩ | hevk | hk
        · subst hevk
          rw [hev] at hnext
          rw [skipAux_step_start f c r _ nm a hnext]
          refine ih (c + 2) (n + 1) _ ?_ ?_ ?_ ?_
          · exact hm
          · show (if shouldLatch r.parser.config (.ok (.StartElement nm a)) = true
              then some (Except.ok (XmlEvent.StartElement nm a)) else none) = none
            rfl
          · exact G.step_start r.parser.st r.source n nm a hinv hev
          · omega
        · subst hevk
          rw [hev] at hnext
          rw [skipAux_step_end f c r _ nm hnext]
          obtain ⟨p, rfl, hinv2⟩ := G.step_endElem r.parser.st r.source n nm hinv hev
          refine ih c p _ ?_ ?_ ?_ ?_
          · exact hm
          · show (if shouldLatch r.parser.config (.ok (.EndElement nm)) = true
              then some (Except.ok (XmlEvent.EndElement nm)) else none) = none
            rfl
          · exact hinv2
          · omega
        · subst hevk
          have h0 := G.step_endDoc r.parser.st r.source n hinv hev
          omega
        · rw [hev] at hnext
          rw [skipAux_step_other f c r _ ev hk hnext]
          refine ih (c + 1) n _ ?_ ?_ ?_ ?_
          · exact hm
          · show (if shouldLatch r.parser.config (.ok ev) = true
              then some (Except.ok ev) else none) = none
            rw [shouldLatch_ok_of_kind r.parser.config ev (by rw [hk]; intro h; exact EvKind.noConfusion h)]
            rfl
          · exact G.step_other r.parser.st r.source n ev hinv hev hk
          · omega

/-- C3: for every reader state in which at least one element is open and no
terminal is latched (the state immediately after pulling a `StartElement`,
which is the precondition under which `skip` is valid), the pulls performed
inside `EventReader::skip` never yield `EndDocument` while the depth counter
is positive: the `unreachable!()` branch of `skip` is never taken, for any
fuel, so `skip` never panics. -/
theorem c3_skip_never_panics (r : EventReader σ) (G : GrammarInv r.parser.machine)
    (fuel n : Nat) (hf : r.parser.final_result = none)
    (hinv : G.inv r.parser.st r.source n) (hn : 1 ≤ n) :
    (EventReader.skip fuel r).isPanicked = false :=
  skipAux_never_panicked r.parser.machine G fuel 1 n r rfl hf hinv hn

/-- A script is well formed at depth `n` when its `Ok` events respect the
depth discipline of `GrammarInv`: start tags go one deeper, end tags require
positive depth and go one up, `EndDocument` requires depth zero. -/
def scriptOk : Nat → List (Result XmlEvent) → Bool
  | _, [] => true
  | _, .error _ :: _ => true
  | n, .ok ev :: rest =>
    match ev.kind with
    | .start => scriptOk (n + 1) rest
    | .endElem => decide (0 < n) && scriptOk (n - 1) rest
    | .endDoc => decide (n = 0)
    | .other => scriptOk n rest

/-- The scripted machine satisfies the grammar depth invariant, with
`scriptOk` as the invariant. -/
def scripted_grammarInv : GrammarInv scripted where
  inv := fun s _ n => scriptOk n s = true
  step_start := by
    intro s src n nm a hinv hev
    cases s with
    | nil => simp [scripted] at hev
    | cons e rest =>
      cases e with
      | error e2 => simp [scripted] at hev
      | ok ev =>
        simp only [scripted, Except.ok.injEq] at hev
        subst hev
        simpa [scripted, scriptOk, XmlEvent.kind] using hinv
  step_endElem := by
    intro s src n nm hinv hev
    cases s with
    | nil => simp [scripted] at hev
    | cons e rest =>
      cases e with
      | error e2 => simp [scripted] at hev
      | ok ev =>
        simp only [scripted, Except.ok.injEq] at hev
        subst hev
        simp only [scriptOk, XmlEvent.kind, Bool.and_eq_true, decide_eq_true_eq] at hinv
        refine ⟨n - 1, by omega, ?_⟩
        simpa [scripted] using hinv.2
  step_endDoc := by
    intro s src n hinv hev
    cases s with
    | nil => simp [scripted] at hev
    | cons e rest =>
      cases e with
      | error e2 => simp [scripted] at hev
      | ok ev =>
        simp only [scripted, Except.ok.injEq] at hev
        subst hev
        simpa [scriptOk, XmlEvent.kind, decide_eq_true_eq] using hinv
  step_other := by
    intro s src n ev hinv hev hk
    cases s with
    | nil => simp [scripted] at hev
    | cons e rest =>
      cases e with
      | error e2 => simp [scripted] at hev
      | ok ev2 =>
        simp only [scripted, Except.ok.injEq] at hev
        subst hev
        simp only [scriptOk, hk] at hinv
        simpa [scripted] using hinv

/-- A script describing the remaining events of a session just inside one
open element: character data, a nested empty element, the matching end tag,
then the end of the document. -/
def c3Script : List (Result XmlEvent) :=
  [.ok (.Characters "t"), .ok (.StartElement "b" []), .ok (.EndElement "b"),
   .ok (.EndElement "a"), .ok .EndDocument]

/-- A session just inside one open element. -/
def c3Reader : EventReader (List (Result XmlEvent)) :=
  EventReader.new scripted c3Script [4, 5]

theorem c3_skip_never_panics_witness :
    c3Reader.parser.final_result = none ∧
    scriptOk 1 c3Reader.parser.st = true ∧
    (EventReader.skip 10 c3Reader).isPanicked = false :=
  ⟨rfl, rfl,
   c3_skip_never_panics c3Reader scripted_grammarInv 10 1 rfl rfl (Nat.le_refl 1)⟩

end Xml
